import Mathlib

/-!
Formal model of the selection and search logic of
`aa_hotel_optimizer/main.py` (the AAdvantage hotel optimizer).

Modelling conventions:
* Prices, rates and point-per-dollar ratios are exact rationals
  (the source uses binary floating point; the arithmetic appearing in the
  verified properties is sums, comparisons and the two bonus formulas,
  which we interpret over exact rationals).
* Loyalty-point counts are integers.
* A `check_in_date` string in `MM/DD/YYYY` format is modelled by its parsed
  form, a year/month/day record; `datetime.strptime`-based comparison is the
  lexicographic order on (year, month, day).  The canonical strings produced
  by `strftime("%m/%d/%Y")` are in bijection with the parsed records, so
  string equality is record equality.
* Python's `round` (round half to even) is `round_half_even` below.
* Python's stable `list.sort`/`sorted` is modelled by `List.insertionSort`,
  which is also a stable sort, over the transcribed key order.
-/

/- Batteries marks the rational-number field operations irreducible, which
blocks kernel evaluation of concrete instances; unseal them so that witnesses
and counterexamples can be checked by `decide`. -/
unseal Rat.mul Rat.add Rat.sub Rat.inv

namespace AAHotel

/-- A calendar date, the parsed form of a `MM/DD/YYYY` string. -/
structure Date where
  year : Nat
  month : Nat
  day : Nat
deriving DecidableEq

/-- Chronological sort key of a date: lexicographic on (year, month, day).
This is the comparison order of Python `datetime.date` objects, i.e. of
`datetime.strptime(s, "%m/%d/%Y")` results. -/
def Date.key (d : Date) : ℕ ×ₗ ℕ ×ₗ ℕ := toLex (d.year, toLex (d.month, d.day))

/-- String sort key of a canonical zero-padded `MM/DD/YYYY` string:
character-wise comparison is lexicographic on (month, day, year). -/
def Date.strKey (d : Date) : ℕ ×ₗ ℕ ×ₗ ℕ := toLex (d.month, toLex (d.day, d.year))

/-- Gregorian leap-year test, as implemented by `datetime`. -/
def is_leap_year (y : Nat) : Bool := (y % 4 = 0 && y % 100 ≠ 0) || y % 400 = 0

/-- Number of days of month `m` in year `y`. -/
def days_in_month (y m : Nat) : Nat :=
  if m = 2 then (if is_leap_year y then 29 else 28)
  else if m = 4 ∨ m = 6 ∨ m = 9 ∨ m = 11 then 30
  else 31

/-- `d + timedelta(days=1)`: the next calendar day. -/
def Date.next_day (d : Date) : Date :=
  if d.day < days_in_month d.year d.month then ⟨d.year, d.month, d.day + 1⟩
  else if d.month < 12 then ⟨d.year, d.month + 1, 1⟩
  else ⟨d.year + 1, 1, 1⟩

/-- `d + timedelta(days=n)`. -/
def Date.add_days (d : Date) (n : Nat) : Date := Date.next_day^[n] d

/-- `min(a, b)` on dates (Python `min` returns the first argument on ties). -/
def min_date (a b : Date) : Date := if Date.key a ≤ Date.key b then a else b

/-- One candidate stay record, the dictionary built by `analyze_hotel_data`.
Fields not involved in the optimization logic (`refundability`,
`star_rating`, `user_rating`, the card-miles bookkeeping flags) are omitted;
they are descriptive passthrough only. -/
structure StayOption where
  name : String
  location : String
  check_in_date : Date
  total_price : ℚ
  api_points_earned : ℤ
  card_bonus_points : ℤ
  points_earned : ℤ
  points_per_dollar : ℚ
  status_bonus_points : ℤ
  points_earned_final_for_itinerary : ℤ
  points_per_dollar_final_for_itinerary : ℚ
  miles_earned : ℤ
  miles_value : ℚ
deriving DecidableEq

/-- Python's built-in `round` on an exact rational: round half to even.
`Int.fdiv q.num q.den` is the floor of `q` (the denominator is positive). -/
def round_half_even (q : ℚ) : ℤ :=
  let f : ℤ := Int.fdiv q.num (q.den : ℤ)
  let r := q - (f : ℚ)
  if r < 1/2 then f
  else if 1/2 < r then f + 1
  else if f % 2 = 0 then f else f + 1

/-- The status-bonus percentage chosen by
`_apply_status_bonus_and_recalculate` from the projected balance before the
stay: `0.30` at or above 100000, `0.20` at or above 60000, else `0`. -/
def status_bonus_percentage (projected_lp_before_stay : ℤ) : ℚ :=
  if 100000 ≤ projected_lp_before_stay then 30/100
  else if 60000 ≤ projected_lp_before_stay then 20/100
  else 0

/-- `_apply_status_bonus_and_recalculate(stay, projected_lp_before_stay,
miles_value_rate)`: returns a copy of `stay` with the status bonus computed
from the base API points, the final itinerary points, the final
points-per-dollar ratio, and the miles figures updated. -/
def apply_status_bonus_and_recalculate (stay : StayOption)
    (projected_lp_before_stay : ℤ) (miles_value_rate : ℚ) : StayOption :=
  let pct := status_bonus_percentage projected_lp_before_stay
  let bonus := round_half_even ((stay.api_points_earned : ℚ) * pct)
  let final_points := stay.points_earned + bonus
  let final_ppd : ℚ :=
    if 0 < stay.total_price then (final_points : ℚ) / stay.total_price else 0
  let final_miles := stay.miles_earned + bonus
  { stay with
    status_bonus_points := bonus
    points_earned_final_for_itinerary := final_points
    points_per_dollar_final_for_itinerary := final_ppd
    miles_earned := final_miles
    miles_value := (final_miles : ℚ) * miles_value_rate }

/-- Descending sort order of `select_optimal_stays_ppd`:
`sorted(key=lambda x: (points_per_dollar, -total_price), reverse=True)`,
modelled stably as "b's key is at most a's key". -/
def ppd_order (a b : StayOption) : Prop :=
  toLex (b.points_per_dollar, -b.total_price) ≤ toLex (a.points_per_dollar, -a.total_price)

instance : DecidableRel ppd_order := fun a b => by unfold ppd_order; infer_instance

/-- Ascending sort order of `select_cheapest_stays_for_target_lp`:
`sorted(key=lambda x: (total_price, -points_earned, check_in_date))`, where
the date component is the string comparison of `MM/DD/YYYY`. -/
def cheapest_order (a b : StayOption) : Prop :=
  toLex (a.total_price, toLex (-a.points_earned, Date.strKey a.check_in_date)) ≤
    toLex (b.total_price, toLex (-b.points_earned, Date.strKey b.check_in_date))

instance : DecidableRel cheapest_order := fun a b => by unfold cheapest_order; infer_instance

/-- Descending candidate order inside `select_fastest_calendar_time_lp`:
`sort(key=lambda x: (points_earned_final_for_itinerary, -total_price), reverse=True)`. -/
def fastest_order (a b : StayOption) : Prop :=
  toLex (b.points_earned_final_for_itinerary, -b.total_price) ≤
    toLex (a.points_earned_final_for_itinerary, -a.total_price)

instance : DecidableRel fastest_order := fun a b => by unfold fastest_order; infer_instance

/-- Chronological order on stays, the final itinerary sort key
`datetime.strptime(x["check_in_date"], "%m/%d/%Y")`. -/
def chrono_le (a b : StayOption) : Prop :=
  Date.key a.check_in_date ≤ Date.key b.check_in_date

instance : DecidableRel chrono_le := fun a b => by unfold chrono_le; infer_instance

instance : IsTotal StayOption chrono_le := ⟨fun a b => le_total _ _⟩

instance : IsTrans StayOption chrono_le := ⟨fun _ _ _ h1 h2 => le_trans h1 h2⟩

/-- Final itinerary sort of `select_fastest_calendar_time_lp`:
`sort(key=lambda x: (strptime(check_in_date), name))`. -/
def fastest_final_le (a b : StayOption) : Prop :=
  toLex (Date.key a.check_in_date, a.name) ≤ toLex (Date.key b.check_in_date, b.name)

instance : DecidableRel fastest_final_le := fun a b => by unfold fastest_final_le; infer_instance

instance : IsTotal StayOption fastest_final_le := ⟨fun a b => le_total _ _⟩

instance : IsTrans StayOption fastest_final_le := ⟨fun _ _ _ h1 h2 => le_trans h1 h2⟩

/-- Ascending order on dates themselves (`sorted` over date objects). -/
def date_le (a b : Date) : Prop := Date.key a ≤ Date.key b

instance : DecidableRel date_le := fun a b => by unfold date_le; infer_instance

/-- Loop state of the shared greedy walk of `select_optimal_stays_ppd` and
`select_cheapest_stays_for_target_lp`: the selected itinerary, the running
cost, the projected cumulative balance, and the set of booked check-in
dates. -/
structure WalkState where
  itin : List StayOption
  cost : ℚ
  proj : ℤ
  booked : List Date

/-- One iteration of the shared greedy walk.  `break` once the projected
balance reaches the target is modelled by freezing the state (nothing
changes once the guard holds, so skipping equals breaking); a stay whose
check-in date is already booked is skipped; otherwise the stay is
recalculated with the status bonus at the running balance and accepted. -/
def greedy_step (target_points : ℤ) (miles_value_rate : ℚ)
    (st : WalkState) (stay : StayOption) : WalkState :=
  if target_points ≤ st.proj then st
  else if stay.check_in_date ∈ st.booked then st
  else
    let s := apply_status_bonus_and_recalculate stay st.proj miles_value_rate
    ⟨st.itin ++ [s], st.cost + s.total_price,
      st.proj + s.points_earned_final_for_itinerary,
      stay.check_in_date :: st.booked⟩

/-- `select_optimal_stays_ppd(all_stays, target_points, current_lp_balance,
miles_value_rate)`: greedy maximize points-per-dollar. -/
def select_optimal_stays_ppd (all_stays : List StayOption) (target_points : ℤ)
    (current_lp_balance : ℤ) (miles_value_rate : ℚ) :
    List StayOption × ℚ × ℤ :=
  let candidate_stays_orig := all_stays.filter (fun s => decide (0 < s.api_points_earned))
  if candidate_stays_orig = [] then ([], 0, 0)
  else
    let sorted_initial_candidates := List.insertionSort ppd_order candidate_stays_orig
    let st := sorted_initial_candidates.foldl
      (greedy_step target_points miles_value_rate) ⟨[], 0, current_lp_balance, []⟩
    let final_achieved_points :=
      (st.itin.map (fun s => s.points_earned_final_for_itinerary)).sum
    (List.insertionSort chrono_le st.itin, st.cost, final_achieved_points)

/-- `select_cheapest_stays_for_target_lp(all_stays, target_points,
current_lp_balance, miles_value_rate)`: greedy cheapest-first.  Identical
walk to the ppd strategy, but candidates additionally need a strictly
positive price and are sorted ascending by price. -/
def select_cheapest_stays_for_target_lp (all_stays : List StayOption)
    (target_points : ℤ) (current_lp_balance : ℤ) (miles_value_rate : ℚ) :
    List StayOption × ℚ × ℤ :=
  let candidate_stays_orig := all_stays.filter
    (fun s => decide (0 < s.api_points_earned) && decide (0 < s.total_price))
  if candidate_stays_orig = [] then ([], 0, 0)
  else
    let sorted_initial_candidates := List.insertionSort cheapest_order candidate_stays_orig
    let st := sorted_initial_candidates.foldl
      (greedy_step target_points miles_value_rate) ⟨[], 0, current_lp_balance, []⟩
    let final_achieved_points :=
      (st.itin.map (fun s => s.points_earned_final_for_itinerary)).sum
    (List.insertionSort chrono_le st.itin, st.cost, final_achieved_points)

/-- One iteration of the greedy acceptance loop inside
`select_fastest_calendar_time_lp`: state is (itinerary, cost, points
accumulated from new stays).  The `break` on reaching the relative target is
modelled by freezing the state; a stay is skipped when `max_overlaps` is a
positive bound and its check-in date already occurs that many times.
`fastest_can_add` is the `can_add_stay` computation of the source. -/
def fastest_can_add (max_overlaps : Option ℤ) (itin : List StayOption)
    (stay : StayOption) : Bool :=
  match max_overlaps with
  | none => true
  | some m =>
    if 0 < m then
      decide (((itin.filter
        (fun e => decide (e.check_in_date = stay.check_in_date))).length : ℤ) < m)
    else true

def fastest_greedy_step (max_overlaps : Option ℤ) (relative_lp_needed : ℤ)
    (st : List StayOption × ℚ × ℤ) (stay : StayOption) :
    List StayOption × ℚ × ℤ :=
  if relative_lp_needed ≤ st.2.2 then st
  else if fastest_can_add max_overlaps st.1 stay then
    (st.1 ++ [stay], st.2.1 + stay.total_price,
      st.2.2 + stay.points_earned_final_for_itinerary)
  else st

/-- The `for potential_completion_date in unique_checkout_dates` loop of
`select_fastest_calendar_time_lp`.  For each candidate completion date:
considers stays checking in strictly before it, returns immediately when the
relative target is already non-positive, otherwise greedily fills and
returns the first feasible completion date; falls through to the failure
return `([], 0.0, current_lp_balance)` when every date is infeasible. -/
def fastest_loop (cands : List StayOption)
    (target_points current_lp_balance : ℤ) (max_overlaps : Option ℤ) :
    List Date → List StayOption × ℚ × ℤ
  | [] => ([], 0, current_lp_balance)
  | d :: rest =>
    let stays_ending_by_date :=
      cands.filter (fun s => decide (Date.key s.check_in_date < Date.key d))
    if stays_ending_by_date = [] then
      fastest_loop cands target_points current_lp_balance max_overlaps rest
    else
      let sorted_stays := List.insertionSort fastest_order stays_ending_by_date
      let relative_lp_needed := target_points - current_lp_balance
      if relative_lp_needed ≤ 0 then ([], 0, current_lp_balance)
      else
        let st := sorted_stays.foldl
          (fastest_greedy_step max_overlaps relative_lp_needed) ([], 0, 0)
        if relative_lp_needed ≤ st.2.2 then
          (List.insertionSort fastest_final_le st.1, st.2.1,
            current_lp_balance + st.2.2)
        else fastest_loop cands target_points current_lp_balance max_overlaps rest

/-- `select_fastest_calendar_time_lp(all_stays, target_points,
current_lp_balance, max_overlaps, miles_value_rate)`: reach the target by
the earliest check-out date, allowing up to `max_overlaps` stays per
check-in date.  The status bonus of every candidate is computed once from
the starting balance. -/
def select_fastest_calendar_time_lp (all_stays : List StayOption)
    (target_points current_lp_balance : ℤ) (max_overlaps : Option ℤ)
    (miles_value_rate : ℚ) : List StayOption × ℚ × ℤ :=
  if all_stays = [] then ([], 0, current_lp_balance)
  else
    let candidate_stays_with_initial_bonus :=
      (all_stays.filter (fun s => decide (0 < s.api_points_earned))).map
        (fun s => apply_status_bonus_and_recalculate s current_lp_balance miles_value_rate)
    if candidate_stays_with_initial_bonus = [] then ([], 0, current_lp_balance)
    else
      let unique_checkout_dates := List.insertionSort date_le
        ((candidate_stays_with_initial_bonus.map
          (fun s => Date.next_day s.check_in_date)).dedup)
      fastest_loop candidate_stays_with_initial_bonus target_points
        current_lp_balance max_overlaps unique_checkout_dates

/-- Lookup in the insertion-ordered dictionary `best_initial_stay_per_date`. -/
def assoc_find : List (Date × StayOption) → Date → Option StayOption
  | [], _ => none
  | p :: rest, d => if p.1 = d then some p.2 else assoc_find rest d

/-- In-place value replacement in the insertion-ordered dictionary (Python
dict assignment to an existing key keeps its insertion position). -/
def assoc_replace : List (Date × StayOption) → Date → StayOption →
    List (Date × StayOption)
  | [], _, _ => []
  | p :: rest, d, s => if p.1 = d then (d, s) :: rest else p :: assoc_replace rest d s

/-- Phase 1 of `select_optimal_stays_dp`: per date keep the single stay with
the highest `points_earned`, ties broken by lower price; stays with
non-positive `points_earned` or non-positive price are skipped. -/
def dp_phase1_step (acc : List (Date × StayOption)) (stay : StayOption) :
    List (Date × StayOption) :=
  if stay.points_earned ≤ 0 ∨ stay.total_price ≤ 0 then acc
  else
    match assoc_find acc stay.check_in_date with
    | none => acc ++ [(stay.check_in_date, stay)]
    | some cur =>
      if cur.points_earned < stay.points_earned ∨
          (stay.points_earned = cur.points_earned ∧ stay.total_price < cur.total_price) then
        assoc_replace acc stay.check_in_date stay
      else acc

/-- The dictionary `best_initial_stay_per_date` after scanning all stays. -/
def best_initial_stay_per_date (all_stays : List StayOption) :
    List (Date × StayOption) :=
  all_stays.foldl dp_phase1_step []

/-- The DP table of `select_optimal_stays_dp`: entry `p` is the minimum cost
to accumulate exactly `p` pre-bonus points (`none` is the initial
`float("inf")`) together with the chosen candidate indices. -/
def dp_init (range : ℕ) : List (Option ℚ × List ℕ) :=
  (some 0, []) :: List.replicate range (none, [])

/-- The knapsack update for one table entry: `cur` is `dp[p]` and `below` is
`dp[p - s_points]`, both read from the table before this stay is processed
(the source's descending index loop reads only not-yet-updated entries, so
one functional pass over the old table is the same computation). -/
def dp_combine (s_cost : ℚ) (idx : ℕ) (cur below : Option ℚ × List ℕ) :
    Option ℚ × List ℕ :=
  match below.1 with
  | none => cur
  | some cb =>
    let cost_if_taken := cb + s_cost
    match cur.1 with
    | none => (some cost_if_taken, below.2 ++ [idx])
    | some cc =>
      if cost_if_taken < cc then (some cost_if_taken, below.2 ++ [idx])
      else if cost_if_taken = cc ∧ below.2.length + 1 < cur.2.length then
        (some cc, below.2 ++ [idx])
      else cur

/-- Processing one candidate stay against the whole DP table: entries below
`s_points` are unchanged (the source loop stops at `s_points`), which the
leading `(none, [])` padding of the shifted copy realises. -/
def dp_process_stay (dp : List (Option ℚ × List ℕ)) (idx : ℕ)
    (stay : StayOption) : List (Option ℚ × List ℕ) :=
  if stay.points_earned ≤ 0 then dp
  else
    List.zipWith (dp_combine stay.total_price idx) dp
      (List.replicate stay.points_earned.toNat (none, []) ++ dp)

/-- `for idx, stay in enumerate(candidate_stays_for_dp)` over the table. -/
def dp_process_all : List (Option ℚ × List ℕ) → ℕ → List StayOption →
    List (Option ℚ × List ℕ)
  | dp, _, [] => dp
  | dp, idx, s :: rest => dp_process_all (dp_process_stay dp idx s) (idx + 1) rest

/-- Pre-bonus points collected along a reconstructed DP path. -/
def path_points (cands : List StayOption) (path : List ℕ) : ℤ :=
  (path.map (fun i => ((cands[i]?).map (fun s => s.points_earned)).getD 0)).sum

/-- The read-out scan over table entries from the relative target upwards:
keep the cheapest entry, ties resolved toward strictly more points. -/
def dp_readout_step (cands : List StayOption) (best entry : Option ℚ × List ℕ) :
    Option ℚ × List ℕ :=
  match entry.1 with
  | none => best
  | some c =>
    match best.1 with
    | none => (some c, entry.2)
    | some b =>
      if c < b then (some c, entry.2)
      else if c = b ∧ path_points cands best.2 < path_points cands entry.2 then
        (some b, entry.2)
      else best

/-- The final sequential pass of `select_optimal_stays_dp`: apply the status
bonus to each chosen stay with the running balance, accumulating the
itinerary, the total cost, and the final projected balance. -/
def dp_finalize (rate : ℚ) : List StayOption → ℤ → List StayOption × ℚ × ℤ
  | [], proj => ([], 0, proj)
  | s :: rest, proj =>
    let s1 := apply_status_bonus_and_recalculate s proj rate
    let r := dp_finalize rate rest (proj + s1.points_earned_final_for_itinerary)
    (s1 :: r.1, r.2.1 + s1.total_price, r.2.2)

/-- Python `max(gen, default=0)`. -/
def max_points_with_default (l : List ℤ) : ℤ :=
  match l with
  | [] => 0
  | x :: xs => xs.foldl max x

/-- `select_optimal_stays_dp(all_stays, target_points, current_lp_balance,
miles_value_rate)`: knapsack-style exact minimization on pre-bonus points.
`int(relative_target_points * 0.2)` is modelled as floor division by 5 (the
operands are non-negative integers). -/
def select_optimal_stays_dp (all_stays : List StayOption)
    (target_points current_lp_balance : ℤ) (miles_value_rate : ℚ) :
    List StayOption × ℚ × ℤ :=
  if all_stays = [] ∨ target_points ≤ 0 then
    ([], 0, if target_points ≤ 0 then current_lp_balance else 0)
  else
    let candidate_stays_for_dp :=
      (best_initial_stay_per_date all_stays).map (fun p => p.2)
    if candidate_stays_for_dp = [] then ([], 0, current_lp_balance)
    else
      let relative_target_points := max 0 (target_points - current_lp_balance)
      if relative_target_points = 0 then ([], 0, current_lp_balance)
      else
        let max_initial_points := max_points_with_default
          (candidate_stays_for_dp.map (fun s => s.points_earned))
        let buffer_points :=
          max (max max_initial_points (relative_target_points / 5)) 1000
        let range0 := relative_target_points + buffer_points
        let max_dp_points_range := if range0 ≤ 0 then relative_target_points else range0
        let table := dp_process_all (dp_init max_dp_points_range.toNat) 0
          candidate_stays_for_dp
        let best := (table.drop relative_target_points.toNat).foldl
          (dp_readout_step candidate_stays_for_dp) (none, [])
        match best.1 with
        | none => ([], 0, current_lp_balance)
        | some _ =>
          let temp_selected_stays :=
            best.2.filterMap (fun i => candidate_stays_for_dp[i]?)
          let temp_sorted := List.insertionSort chrono_le temp_selected_stays
          dp_finalize miles_value_rate temp_sorted current_lp_balance

/-- The dedup key of the orchestrator's pool merge:
`(name, location, check_in_date, total_price)`, exact tuple match. -/
def hotel_key (s : StayOption) : String × String × Date × ℚ :=
  (s.name, s.location, s.check_in_date, s.total_price)

/-- The merge of one pass's results into the global pool in
`find_best_hotel_deals`: append each new stay whose key tuple is not
already present in the (growing) pool. -/
def merge_pass_results (pool new_stays : List StayOption) : List StayOption :=
  new_stays.foldl
    (fun acc h =>
      if acc.any (fun e => decide (hotel_key e = hotel_key h)) then acc
      else acc ++ [h])
    pool

/-- The `--optimization-strategy` choices. -/
inductive OptimizationStrategy
  | points_per_dollar
  | minimize_cost_for_target_lp
  | dp_minimize_cost
  | fastest_calendar_time_lp

/-- The strategy dispatch of `find_best_hotel_deals` (unknown strings
default to points-per-dollar in the source; the enum has no extra case). -/
def run_strategy (strat : OptimizationStrategy) (pool : List StayOption)
    (target balance : ℤ) (max_overlaps : Option ℤ) (rate : ℚ) :
    List StayOption × ℚ × ℤ :=
  match strat with
  | .minimize_cost_for_target_lp =>
    select_cheapest_stays_for_target_lp pool target balance rate
  | .dp_minimize_cost => select_optimal_stays_dp pool target balance rate
  | .fastest_calendar_time_lp =>
    select_fastest_calendar_time_lp pool target balance max_overlaps rate
  | .points_per_dollar => select_optimal_stays_ppd pool target balance rate

/-- The per-pass update of `running_total_lp_achieved`: unchanged when the
global pool is empty, otherwise the achieved points of the selected strategy
run on the updated pool. -/
def pass_achieved (strat : OptimizationStrategy) (pool1 : List StayOption)
    (target balance : ℤ) (max_overlaps : Option ℤ) (rate : ℚ)
    (achieved : ℤ) : ℤ :=
  if pool1 = [] then achieved
  else (run_strategy strat pool1 target balance max_overlaps rate).2.2

/-- The `while True` search loop of `find_best_hotel_deals`.  The external
per-pass retrieval (place lookup plus concurrent per-date fetches over the
window) is abstracted by the oracle `fetch pass start end`; the source's
`generate_date_range(start, end)` is nonempty exactly when `start ≤ end`,
which is the only fact about it the loop control uses.  Returns the final
value of `current_iteration_pass`, the number of executed search passes,
the global pool, and the running achieved points. -/
def find_best_hotel_deals_loop (fetch : ℕ → Date → Date → List StayOption)
    (strat : OptimizationStrategy)
    (target_loyalty_points current_lp_balance : ℤ) (max_overlaps : Option ℤ)
    (rate : ℚ) (iterative_search_for_lp_target : Bool)
    (absolute_max_end_date : Date) (iter passes : ℕ) (startD endD : Date)
    (achieved : ℤ) (pool : List StayOption) : ℕ × ℕ × List StayOption × ℤ :=
  let current_iteration_pass := iter + 1
  if h1 : iterative_search_for_lp_target = true ∧ 12 < current_iteration_pass then
    (current_iteration_pass, passes, pool, achieved)
  else if iterative_search_for_lp_target = true ∧
      Date.key absolute_max_end_date < Date.key startD then
    (current_iteration_pass, passes, pool, achieved)
  else if Date.key endD < Date.key startD then
    -- `date_range_chunk_for_pass` is empty; the source's extra guard
    -- `not iterative or start > end` is implied, so the loop breaks here.
    (current_iteration_pass, passes, pool, achieved)
  else
    let fetched := fetch current_iteration_pass startD endD
    let pool1 := merge_pass_results pool fetched
    let achieved1 := pass_achieved strat pool1 target_loyalty_points
      current_lp_balance max_overlaps rate achieved
    let passes1 := passes + 1
    if h5 : iterative_search_for_lp_target = false then
      (current_iteration_pass, passes1, pool1, achieved1)
    else if target_loyalty_points ≤ achieved1 then
      (current_iteration_pass, passes1, pool1, achieved1)
    else
      let newStart := Date.add_days endD 1
      let newEnd := min_date (Date.add_days newStart 29) absolute_max_end_date
      if Date.key newEnd < Date.key newStart then
        (current_iteration_pass, passes1, pool1, achieved1)
      else
        find_best_hotel_deals_loop fetch strat target_loyalty_points
          current_lp_balance max_overlaps rate iterative_search_for_lp_target
          absolute_max_end_date current_iteration_pass passes1 newStart newEnd
          achieved1 pool1
termination_by 12 - iter
decreasing_by
  have hb : iterative_search_for_lp_target = true := by
    revert h5; cases iterative_search_for_lp_target <;> simp
  simp only [not_and, not_lt, hb, forall_const] at h1
  omega

/-- `find_best_hotel_deals` after the loop: if the pool is empty the empty
result with the starting balance is returned, otherwise the selected
strategy runs once more on the full pool for the authoritative result. -/
def find_best_hotel_deals (fetch : ℕ → Date → Date → List StayOption)
    (strat : OptimizationStrategy)
    (target_loyalty_points current_lp_balance : ℤ) (max_overlaps : Option ℤ)
    (rate : ℚ) (iterative_search_for_lp_target : Bool)
    (start_date end_date : Date) (max_search_days_iterative : ℕ) :
    List StayOption × List StayOption × ℚ × ℤ :=
  let horizon := Date.add_days start_date max_search_days_iterative
  let r := find_best_hotel_deals_loop fetch strat target_loyalty_points
    current_lp_balance max_overlaps rate iterative_search_for_lp_target horizon
    0 0 start_date end_date current_lp_balance []
  let pool := r.2.2.1
  if pool = [] then ([], [], 0, current_lp_balance)
  else
    let fin := run_strategy strat pool target_loyalty_points current_lp_balance
      max_overlaps rate
    (pool, fin.1, fin.2.1, fin.2.2)

/-- Invariant of the shared greedy walk: the cost is the sum of the selected
prices, the projected balance is the starting balance plus the selected
final points, selected check-in dates are pairwise distinct and all booked,
and every selected entry is a bonus-recalculated copy of a source stay. -/
def WalkInv (balance : ℤ) (rate : ℚ) (src : List StayOption) (st : WalkState) : Prop :=
  st.cost = (st.itin.map (fun s => s.total_price)).sum ∧
  st.proj = balance + (st.itin.map (fun s => s.points_earned_final_for_itinerary)).sum ∧
  (st.itin.map (fun s => s.check_in_date)).Nodup ∧
  (∀ x ∈ st.itin, x.check_in_date ∈ st.booked) ∧
  (∀ x ∈ st.itin, ∃ y ∈ src, ∃ p, x = apply_status_bonus_and_recalculate y p rate)

/-- Invariant of the fastest-calendar greedy fill: cost and accumulated
points are the sums over the partial itinerary, every selected stay comes
from the considered pool, and when a positive overlap bound is set no
check-in date occurs more often than the bound. -/
def FastInv (src : List StayOption) (maxOv : Option ℤ)
    (st : List StayOption × ℚ × ℤ) : Prop :=
  st.2.1 = (st.1.map (fun s => s.total_price)).sum ∧
  st.2.2 = (st.1.map (fun s => s.points_earned_final_for_itinerary)).sum ∧
  (∀ x ∈ st.1, x ∈ src) ∧
  (∀ m, maxOv = some m → 0 < m → ∀ d : Date,
    ((st.1.filter (fun e => decide (e.check_in_date = d))).length : ℤ) ≤ m)

/-- Invariant of the phase-1 dictionary of `select_optimal_stays_dp`: keys
are pairwise distinct, every value checks in on its key date, and every
value has strictly positive pre-bonus points and price. -/
def AssocOk (acc : List (Date × StayOption)) : Prop :=
  (acc.map (fun p => p.1)).Nodup ∧
  ∀ p ∈ acc, p.2.check_in_date = p.1 ∧ 0 < p.2.points_earned ∧ 0 < p.2.total_price

/-- Every reconstructed index path stored in the DP table is duplicate-free
and mentions only already-processed candidate indices. -/
def PathsOk (n : ℕ) (table : List (Option ℚ × List ℕ)) : Prop :=
  ∀ e ∈ table, e.2.Nodup ∧ ∀ i ∈ e.2, i < n

theorem apply_status_check_in (stay : StayOption) (p : ℤ) (r : ℚ) :
    (apply_status_bonus_and_recalculate stay p r).check_in_date = stay.check_in_date := rfl

theorem apply_status_api (stay : StayOption) (p : ℤ) (r : ℚ) :
    (apply_status_bonus_and_recalculate stay p r).api_points_earned = stay.api_points_earned := rfl

theorem apply_status_points_earned (stay : StayOption) (p : ℤ) (r : ℚ) :
    (apply_status_bonus_and_recalculate stay p r).points_earned = stay.points_earned := rfl

theorem apply_status_price (stay : StayOption) (p : ℤ) (r : ℚ) :
    (apply_status_bonus_and_recalculate stay p r).total_price = stay.total_price := rfl

/-- A fold preserves any invariant its step preserves. -/
theorem foldl_preserve {σ α : Type} (P : σ → Prop) (f : σ → α → σ)
    (l : List α) (s : σ) (hs : P s)
    (hstep : ∀ t a, a ∈ l → P t → P (f t a)) : P (l.foldl f s) := by
  induction l generalizing s with
  | nil => exact hs
  | cons x xs ih =>
    exact ih (f s x) (hstep s x (List.mem_cons_self x xs) hs)
      (fun t a ha ht => hstep t a (List.mem_cons_of_mem x ha) ht)

theorem greedy_step_inv (target : ℤ) (rate : ℚ) (balance : ℤ)
    (src : List StayOption) (st : WalkState) (stay : StayOption)
    (hstay : stay ∈ src) (h : WalkInv balance rate src st) :
    WalkInv balance rate src (greedy_step target rate st stay) := by
  obtain ⟨hc, hp, hn, hb, hm⟩ := h
  unfold greedy_step
  split
  · exact ⟨hc, hp, hn, hb, hm⟩
  split
  · exact ⟨hc, hp, hn, hb, hm⟩
  rename_i hdate
  refine ⟨?_, ?_, ?_, ?_, ?_⟩
  · simp only [List.map_append, List.map_cons, List.map_nil, List.sum_append,
      List.sum_cons, List.sum_nil, add_zero, hc]
  · simp only [List.map_append, List.map_cons, List.map_nil, List.sum_append,
      List.sum_cons, List.sum_nil, add_zero, hp, add_assoc]
  · simp only [List.map_append, List.map_cons, List.map_nil]
    rw [List.nodup_append]
    refine ⟨hn, List.nodup_singleton _, ?_⟩
    intro d hd hd1
    rw [List.mem_singleton] at hd1
    rw [apply_status_check_in] at hd1
    obtain ⟨x, hx, hxd⟩ := List.mem_map.mp hd
    apply hdate
    rw [← hd1, ← hxd]
    exact hb x hx
  · intro x hx
    rcases List.mem_append.mp hx with hx1 | hx1
    · exact List.mem_cons_of_mem _ (hb x hx1)
    · rw [List.mem_singleton] at hx1
      subst hx1
      rw [apply_status_check_in]
      exact List.mem_cons_self _ _
  · intro x hx
    rcases List.mem_append.mp hx with hx1 | hx1
    · exact hm x hx1
    · rw [List.mem_singleton] at hx1
      exact ⟨stay, hstay, st.proj, hx1⟩

theorem walk_inv (target : ℤ) (rate : ℚ) (balance : ℤ)
    (l src : List StayOption) (hl : ∀ x ∈ l, x ∈ src) :
    WalkInv balance rate src
      (l.foldl (greedy_step target rate) ⟨[], 0, balance, []⟩) := by
  refine foldl_preserve _ _ _ _ ?_ (fun t a ha ht => greedy_step_inv _ _ _ _ _ _ (hl a ha) ht)
  refine ⟨by simp, by simp, by simp, ?_, ?_⟩ <;> intro x hx <;> simp at hx

theorem walk_result_spec (target : ℤ) (rate : ℚ) (balance : ℤ)
    (l src : List StayOption) (hsub : ∀ x ∈ l, x ∈ src) :
    (l.foldl (greedy_step target rate) ⟨[], 0, balance, []⟩).cost =
      ((List.insertionSort chrono_le
        (l.foldl (greedy_step target rate) ⟨[], 0, balance, []⟩).itin).map
          (fun s => s.total_price)).sum ∧
    ((l.foldl (greedy_step target rate) ⟨[], 0, balance, []⟩).itin.map
        (fun s => s.points_earned_final_for_itinerary)).sum =
      ((List.insertionSort chrono_le
        (l.foldl (greedy_step target rate) ⟨[], 0, balance, []⟩).itin).map
          (fun s => s.points_earned_final_for_itinerary)).sum ∧
    List.Pairwise (fun a c => a.check_in_date ≠ c.check_in_date)
      (List.insertionSort chrono_le
        (l.foldl (greedy_step target rate) ⟨[], 0, balance, []⟩).itin) ∧
    List.Pairwise chrono_le
      (List.insertionSort chrono_le
        (l.foldl (greedy_step target rate) ⟨[], 0, balance, []⟩).itin) ∧
    (∀ x ∈ List.insertionSort chrono_le
        (l.foldl (greedy_step target rate) ⟨[], 0, balance, []⟩).itin,
      ∃ y ∈ src, ∃ p, x = apply_status_bonus_and_recalculate y p rate) := by
  obtain ⟨hc, hp, hn, hb, hm⟩ := walk_inv target rate balance l src hsub
  set st := l.foldl (greedy_step target rate) ⟨[], 0, balance, []⟩ with hst
  have hperm : List.Perm (List.insertionSort chrono_le st.itin) st.itin :=
    List.perm_insertionSort chrono_le st.itin
  refine ⟨?_, ?_, ?_, ?_, ?_⟩
  · rw [hc]
    exact ((hperm.map (fun s => s.total_price)).sum_eq).symm
  · exact ((hperm.map (fun s => s.points_earned_final_for_itinerary)).sum_eq).symm
  · have h1 : (List.Pairwise (fun a c : StayOption => a.check_in_date ≠ c.check_in_date)
        (List.insertionSort chrono_le st.itin)) ↔
        ((List.insertionSort chrono_le st.itin).map
          (fun s => s.check_in_date)).Nodup := by
      rw [List.Nodup, List.pairwise_map]
    rw [h1, (hperm.map (fun s => s.check_in_date)).nodup_iff]
    exact hn
  · exact List.sorted_insertionSort chrono_le st.itin
  · intro x hx
    exact hm x (hperm.mem_iff.mp hx)

/-- The full correctness bundle for `select_optimal_stays_ppd`: cost and
achieved-points additivity (achieved is a delta, not balance-inclusive),
pairwise-distinct check-in dates, chronological output, and positivity of
the base API yield of every selected stay. -/
theorem select_optimal_stays_ppd_spec (all_stays : List StayOption)
    (t b : ℤ) (rate : ℚ) :
    (select_optimal_stays_ppd all_stays t b rate).2.1 =
      ((select_optimal_stays_ppd all_stays t b rate).1.map
        (fun s => s.total_price)).sum ∧
    (select_optimal_stays_ppd all_stays t b rate).2.2 =
      ((select_optimal_stays_ppd all_stays t b rate).1.map
        (fun s => s.points_earned_final_for_itinerary)).sum ∧
    List.Pairwise (fun a c => a.check_in_date ≠ c.check_in_date)
      (select_optimal_stays_ppd all_stays t b rate).1 ∧
    List.Pairwise chrono_le (select_optimal_stays_ppd all_stays t b rate).1 ∧
    (∀ x ∈ (select_optimal_stays_ppd all_stays t b rate).1,
      0 < x.api_points_earned) := by
  unfold select_optimal_stays_ppd
  by_cases hcand :
      all_stays.filter (fun s => decide (0 < s.api_points_earned)) = []
  · simp [hcand]
  · simp only [hcand, if_neg, ite_false]
    obtain ⟨h1, h2, h3, h4, h5⟩ := walk_result_spec t rate b
      (List.insertionSort ppd_order
        (all_stays.filter (fun s => decide (0 < s.api_points_earned))))
      (all_stays.filter (fun s => decide (0 < s.api_points_earned)))
      (fun x hx => (List.perm_insertionSort ppd_order _).subset hx)
    refine ⟨h1, h2, h3, h4, ?_⟩
    intro x hx
    obtain ⟨y, hy, p, hxy⟩ := h5 x hx
    have hy2 := (List.mem_filter.mp hy).2
    rw [hxy, apply_status_api]
    exact of_decide_eq_true hy2

/-- The same correctness bundle for `select_cheapest_stays_for_target_lp`,
whose walk is identical but whose candidates additionally have a strictly
positive price. -/
theorem select_cheapest_stays_spec (all_stays : List StayOption)
    (t b : ℤ) (rate : ℚ) :
    (select_cheapest_stays_for_target_lp all_stays t b rate).2.1 =
      ((select_cheapest_stays_for_target_lp all_stays t b rate).1.map
        (fun s => s.total_price)).sum ∧
    (select_cheapest_stays_for_target_lp all_stays t b rate).2.2 =
      ((select_cheapest_stays_for_target_lp all_stays t b rate).1.map
        (fun s => s.points_earned_final_for_itinerary)).sum ∧
    List.Pairwise (fun a c => a.check_in_date ≠ c.check_in_date)
      (select_cheapest_stays_for_target_lp all_stays t b rate).1 ∧
    List.Pairwise chrono_le (select_cheapest_stays_for_target_lp all_stays t b rate).1 ∧
    (∀ x ∈ (select_cheapest_stays_for_target_lp all_stays t b rate).1,
      0 < x.api_points_earned) := by
  unfold select_cheapest_stays_for_target_lp
  by_cases hcand : all_stays.filter
      (fun s => decide (0 < s.api_points_earned) && decide (0 < s.total_price)) = []
  · simp [hcand]
  · simp only [hcand, if_neg, ite_false]
    obtain ⟨h1, h2, h3, h4, h5⟩ := walk_result_spec t rate b
      (List.insertionSort cheapest_order (all_stays.filter
        (fun s => decide (0 < s.api_points_earned) && decide (0 < s.total_price))))
      (all_stays.filter
        (fun s => decide (0 < s.api_points_earned) && decide (0 < s.total_price)))
      (fun x hx => (List.perm_insertionSort cheapest_order _).subset hx)
    refine ⟨h1, h2, h3, h4, ?_⟩
    intro x hx
    obtain ⟨y, hy, p, hxy⟩ := h5 x hx
    have hy2 := (List.mem_filter.mp hy).2
    rw [Bool.and_eq_true] at hy2
    rw [hxy, apply_status_api]
    exact of_decide_eq_true hy2.1

theorem fastest_greedy_step_inv (maxOv : Option ℤ) (rel : ℤ)
    (src : List StayOption) (st : List StayOption × ℚ × ℤ)
    (stay : StayOption) (hstay : stay ∈ src) (h : FastInv src maxOv st) :
    FastInv src maxOv (fastest_greedy_step maxOv rel st stay) := by
  obtain ⟨hc, ha, hs, hcount⟩ := h
  unfold fastest_greedy_step
  split
  · exact ⟨hc, ha, hs, hcount⟩
  split
  · rename_i hcan
    refine ⟨?_, ?_, ?_, ?_⟩
    · simp [hc]
    · simp [ha]
    · intro x hx
      rcases List.mem_append.mp hx with hx1 | hx1
      · exact hs x hx1
      · rw [List.mem_singleton] at hx1
        exact hx1 ▸ hstay
    · intro m hm hm0 d
      rw [List.filter_append]
      by_cases hd : stay.check_in_date = d
      · have hlt : ((st.1.filter
            (fun e => decide (e.check_in_date = stay.check_in_date))).length : ℤ) < m := by
          rw [hm] at hcan
          unfold fastest_can_add at hcan
          simp only [if_pos hm0] at hcan
          exact of_decide_eq_true hcan
        subst hd
        have hlen : (List.filter
            (fun e => decide (e.check_in_date = stay.check_in_date)) [stay]).length = 1 := by
          simp
        rw [List.length_append, hlen]
        push_cast
        omega
      · have : (List.filter (fun e => decide (e.check_in_date = d)) [stay]).length = 0 := by
          simp [List.filter_cons, hd]
        rw [List.length_append, this, Nat.add_zero]
        exact hcount m hm hm0 d
  · exact ⟨hc, ha, hs, hcount⟩

theorem fastest_final_le_chrono {a c : StayOption}
    (h : fastest_final_le a c) : chrono_le a c := by
  unfold fastest_final_le at h
  unfold chrono_le
  rcases (Prod.Lex.le_iff _ _).mp h with h1 | h1
  · exact le_of_lt h1
  · exact le_of_eq h1.1

/-- Correctness bundle for every result the completion-date loop of the
fastest-calendar strategy can return. -/
theorem fastest_loop_spec (cands : List StayOption) (t b : ℤ)
    (maxOv : Option ℤ) (dates : List Date) :
    (fastest_loop cands t b maxOv dates).2.1 =
      ((fastest_loop cands t b maxOv dates).1.map (fun s => s.total_price)).sum ∧
    (fastest_loop cands t b maxOv dates).2.2 =
      b + ((fastest_loop cands t b maxOv dates).1.map
        (fun s => s.points_earned_final_for_itinerary)).sum ∧
    (∀ x ∈ (fastest_loop cands t b maxOv dates).1, x ∈ cands) ∧
    List.Pairwise chrono_le (fastest_loop cands t b maxOv dates).1 ∧
    (∀ m, maxOv = some m → 0 < m → ∀ d : Date,
      (((fastest_loop cands t b maxOv dates).1.filter
        (fun e => decide (e.check_in_date = d))).length : ℤ) ≤ m) := by
  induction dates with
  | nil =>
    refine ⟨by simp [fastest_loop], by simp [fastest_loop], ?_, ?_, ?_⟩
    · intro x hx; simp [fastest_loop] at hx
    · simp [fastest_loop]
    · intro m hm hm0 d; simp [fastest_loop]; omega
  | cons d rest ih =>
    unfold fastest_loop
    dsimp only
    split
    · exact ih
    split
    · refine ⟨by simp, by simp, ?_, by simp, ?_⟩
      · intro x hx; simp at hx
      · intro m hm hm0 dd; simp; omega
    split
    · rename_i hseN hrel hacc
      have hinv : FastInv cands maxOv
          ((List.insertionSort fastest_order
            (cands.filter (fun s => decide (Date.key s.check_in_date < Date.key d)))).foldl
            (fastest_greedy_step maxOv (t - b)) ([], 0, 0)) := by
        refine foldl_preserve _ _ _ _ ?_ ?_
        · refine ⟨by simp, by simp, ?_, ?_⟩
          · intro x hx; simp at hx
          · intro m hm hm0 dd; simp; omega
        · intro st a ha hst
          refine fastest_greedy_step_inv _ _ _ _ _ ?_ hst
          have ha2 : a ∈ cands.filter
              (fun s => decide (Date.key s.check_in_date < Date.key d)) :=
            (List.perm_insertionSort fastest_order _).subset ha
          exact (List.mem_filter.mp ha2).1
      obtain ⟨hc, ha, hs, hcount⟩ := hinv
      set st := (List.insertionSort fastest_order
        (cands.filter (fun s => decide (Date.key s.check_in_date < Date.key d)))).foldl
        (fastest_greedy_step maxOv (t - b)) ([], 0, 0) with hstdef
      have hperm : List.Perm (List.insertionSort fastest_final_le st.1) st.1 :=
        List.perm_insertionSort fastest_final_le st.1
      refine ⟨?_, ?_, ?_, ?_, ?_⟩
      · rw [hc]
        exact ((hperm.map (fun s => s.total_price)).sum_eq).symm
      · rw [ha]
        rw [((hperm.map (fun s => s.points_earned_final_for_itinerary)).sum_eq)]
      · intro x hx
        exact hs x (hperm.mem_iff.mp hx)
      · exact (List.sorted_insertionSort fastest_final_le st.1).imp
          (fun h => fastest_final_le_chrono h)
      · intro m hm hm0 dd
        rw [(hperm.filter (fun e => decide (e.check_in_date = dd))).length_eq]
        exact hcount m hm hm0 dd
    · exact ih

/-- When the starting balance already covers the target, the completion-date
loop always returns the empty itinerary with the starting balance. -/
theorem fastest_loop_target_met (cands : List StayOption) (t b : ℤ)
    (maxOv : Option ℤ) (h : t - b ≤ 0) (dates : List Date) :
    fastest_loop cands t b maxOv dates = ([], 0, b) := by
  induction dates with
  | nil => simp [fastest_loop]
  | cons d rest ih =>
    unfold fastest_loop
    dsimp only
    split
    · exact ih
    · rfl

/-- `select_fastest_calendar_time_lp` with the target already met returns
`([], 0.0, current_lp_balance)` on every input pool. -/
theorem select_fastest_target_met (all_stays : List StayOption) (t b : ℤ)
    (maxOv : Option ℤ) (rate : ℚ) (h : t ≤ b) :
    select_fastest_calendar_time_lp all_stays t b maxOv rate = ([], 0, b) := by
  unfold select_fastest_calendar_time_lp
  dsimp only
  split
  · rfl
  split
  · rfl
  exact fastest_loop_target_met _ _ _ _ (by omega) _

/-- The full correctness bundle for `select_fastest_calendar_time_lp`. -/
theorem select_fastest_spec (all_stays : List StayOption) (t b : ℤ)
    (maxOv : Option ℤ) (rate : ℚ) :
    (select_fastest_calendar_time_lp all_stays t b maxOv rate).2.1 =
      ((select_fastest_calendar_time_lp all_stays t b maxOv rate).1.map
        (fun s => s.total_price)).sum ∧
    (select_fastest_calendar_time_lp all_stays t b maxOv rate).2.2 =
      b + ((select_fastest_calendar_time_lp all_stays t b maxOv rate).1.map
        (fun s => s.points_earned_final_for_itinerary)).sum ∧
    List.Pairwise chrono_le (select_fastest_calendar_time_lp all_stays t b maxOv rate).1 ∧
    (∀ x ∈ (select_fastest_calendar_time_lp all_stays t b maxOv rate).1,
      0 < x.api_points_earned) ∧
    (∀ m, maxOv = some m → 0 < m → ∀ d : Date,
      (((select_fastest_calendar_time_lp all_stays t b maxOv rate).1.filter
        (fun e => decide (e.check_in_date = d))).length : ℤ) ≤ m) := by
  unfold select_fastest_calendar_time_lp
  dsimp only
  split
  · refine ⟨by simp, by simp, by simp, ?_, ?_⟩
    · intro x hx; simp at hx
    · intro m hm hm0 d; simp; omega
  split
  · refine ⟨by simp, by simp, by simp, ?_, ?_⟩
    · intro x hx; simp at hx
    · intro m hm hm0 d; simp; omega
  refine ⟨(fastest_loop_spec _ _ _ _ _).1, (fastest_loop_spec _ _ _ _ _).2.1,
    (fastest_loop_spec _ _ _ _ _).2.2.2.1, ?_, (fastest_loop_spec _ _ _ _ _).2.2.2.2⟩
  intro x hx
  have hx1 := (fastest_loop_spec _ t b maxOv _).2.2.1 x hx
  obtain ⟨y, hy, hxy⟩ := List.mem_map.mp hx1
  rw [← hxy, apply_status_api]
  exact of_decide_eq_true (List.mem_filter.mp hy).2

theorem assoc_find_none {acc : List (Date × StayOption)} {d : Date}
    (h : assoc_find acc d = none) : ∀ p ∈ acc, p.1 ≠ d := by
  induction acc with
  | nil => intro p hp; simp at hp
  | cons q rest ih =>
    intro p hp
    unfold assoc_find at h
    by_cases hq : q.1 = d
    · rw [if_pos hq] at h; exact absurd h (by simp)
    · rw [if_neg hq] at h
      rcases List.mem_cons.mp hp with hp1 | hp1
      · exact hp1 ▸ hq
      · exact ih h p hp1

theorem assoc_replace_keys (acc : List (Date × StayOption)) (d : Date)
    (s : StayOption) :
    (assoc_replace acc d s).map (fun p => p.1) = acc.map (fun p => p.1) := by
  induction acc with
  | nil => rfl
  | cons q rest ih =>
    unfold assoc_replace
    by_cases hq : q.1 = d
    · rw [if_pos hq]; simp [hq]
    · rw [if_neg hq]; simp [ih]

theorem assoc_replace_mem {acc : List (Date × StayOption)} {d : Date}
    {s : StayOption} {q : Date × StayOption}
    (h : q ∈ assoc_replace acc d s) : q ∈ acc ∨ q = (d, s) := by
  induction acc with
  | nil => simp [assoc_replace] at h
  | cons p rest ih =>
    unfold assoc_replace at h
    by_cases hp : p.1 = d
    · rw [if_pos hp] at h
      rcases List.mem_cons.mp h with h1 | h1
      · exact Or.inr h1
      · exact Or.inl (List.mem_cons_of_mem _ h1)
    · rw [if_neg hp] at h
      rcases List.mem_cons.mp h with h1 | h1
      · exact Or.inl (h1 ▸ List.mem_cons_self _ _)
      · rcases ih h1 with h2 | h2
        · exact Or.inl (List.mem_cons_of_mem _ h2)
        · exact Or.inr h2

theorem dp_phase1_step_ok (acc : List (Date × StayOption)) (stay : StayOption)
    (h : AssocOk acc) : AssocOk (dp_phase1_step acc stay) := by
  obtain ⟨hk, hv⟩ := h
  unfold dp_phase1_step
  split
  · exact ⟨hk, hv⟩
  rename_i hpos
  push_neg at hpos
  obtain ⟨hp1, hp2⟩ := hpos
  have hppos : 0 < stay.points_earned := hp1
  have hprpos : 0 < stay.total_price := hp2
  split
  · rename_i hfind
    constructor
    · rw [List.map_append]
      rw [List.nodup_append]
      refine ⟨hk, by simp, ?_⟩
      intro d hd hd2
      simp only [List.map_cons, List.map_nil, List.mem_singleton] at hd2
      obtain ⟨p, hp, hpd⟩ := List.mem_map.mp hd
      exact assoc_find_none hfind p hp (hpd.trans hd2)
    · intro p hp
      rcases List.mem_append.mp hp with h1 | h1
      · exact hv p h1
      · rw [List.mem_singleton] at h1
        subst h1
        exact ⟨rfl, hppos, hprpos⟩
  · rename_i cur hfind
    split
    · constructor
      · rw [assoc_replace_keys]; exact hk
      · intro p hp
        rcases assoc_replace_mem hp with h1 | h1
        · exact hv p h1
        · subst h1
          exact ⟨rfl, hppos, hprpos⟩
    · exact ⟨hk, hv⟩

theorem best_initial_ok (all_stays : List StayOption) :
    AssocOk (best_initial_stay_per_date all_stays) := by
  unfold best_initial_stay_per_date
  refine foldl_preserve AssocOk dp_phase1_step all_stays [] ?_ ?_
  · exact ⟨by simp, by intro p hp; simp at hp⟩
  · intro t a _ ht
    exact dp_phase1_step_ok t a ht

/-- The phase-1 candidate list: pairwise distinct check-in dates, and
every candidate has strictly positive pre-bonus points and price. -/
theorem dp_candidates_facts (all_stays : List StayOption) :
    List.Pairwise (fun a c : StayOption => a.check_in_date ≠ c.check_in_date)
      ((best_initial_stay_per_date all_stays).map (fun p => p.2)) ∧
    ∀ x ∈ (best_initial_stay_per_date all_stays).map (fun p => p.2),
      0 < x.points_earned ∧ 0 < x.total_price := by
  obtain ⟨hk, hv⟩ := best_initial_ok all_stays
  constructor
  · rw [List.pairwise_map]
    rw [List.Nodup, List.pairwise_map] at hk
    refine hk.imp_of_mem ?_
    intro p q hp hq hne
    rw [(hv p hp).1, (hv q hq).1]
    exact hne
  · intro x hx
    obtain ⟨p, hp, hpx⟩ := List.mem_map.mp hx
    exact hpx ▸ ⟨(hv p hp).2.1, (hv p hp).2.2⟩

theorem mem_zipWith {α β γ : Type} {f : α → β → γ} {c : γ} :
    ∀ {l1 : List α} {l2 : List β}, c ∈ List.zipWith f l1 l2 →
      ∃ a ∈ l1, ∃ b ∈ l2, c = f a b := by
  intro l1
  induction l1 with
  | nil => intro l2 h; simp at h
  | cons x xs ih =>
    intro l2 h
    cases l2 with
    | nil => simp at h
    | cons y ys =>
      rw [List.zipWith_cons_cons] at h
      rcases List.mem_cons.mp h with h1 | h1
      · exact ⟨x, List.mem_cons_self _ _, y, List.mem_cons_self _ _, h1⟩
      · obtain ⟨a, ha, b, hb, hab⟩ := ih h1
        exact ⟨a, List.mem_cons_of_mem _ ha, b, List.mem_cons_of_mem _ hb, hab⟩

theorem dp_combine_cases (s_cost : ℚ) (idx : ℕ)
    (cur below : Option ℚ × List ℕ) :
    dp_combine s_cost idx cur below = cur ∨
      (dp_combine s_cost idx cur below).2 = below.2 ++ [idx] := by
  unfold dp_combine
  rcases below with ⟨bc, bp⟩
  rcases cur with ⟨cc, cp⟩
  cases bc with
  | none => exact Or.inl rfl
  | some cb =>
    cases cc with
    | none => exact Or.inr rfl
    | some c2 =>
      dsimp only
      split
      · exact Or.inr rfl
      split
      · exact Or.inr rfl
      · exact Or.inl rfl

theorem dp_process_stay_paths {dp : List (Option ℚ × List ℕ)} {idx : ℕ}
    {stay : StayOption} (h : PathsOk idx dp) :
    PathsOk (idx + 1) (dp_process_stay dp idx stay) := by
  unfold dp_process_stay
  split
  · intro e he
    obtain ⟨h1, h2⟩ := h e he
    exact ⟨h1, fun i hi => Nat.lt_succ_of_lt (h2 i hi)⟩
  · intro e he
    obtain ⟨cur, hcur, below, hbelow, he⟩ := mem_zipWith he
    rcases dp_combine_cases stay.total_price idx cur below with hc | hc
    · obtain ⟨h1, h2⟩ := h cur hcur
      rw [he, hc]
      exact ⟨h1, fun i hi => Nat.lt_succ_of_lt (h2 i hi)⟩
    · have hbp : below.2.Nodup ∧ ∀ i ∈ below.2, i < idx := by
        rcases List.mem_append.mp hbelow with hb | hb
        · have := List.eq_of_mem_replicate hb
          rw [this]
          exact ⟨List.nodup_nil, by intro i hi; simp at hi⟩
        · exact h below hb
      rw [he, hc]
      constructor
      · rw [List.nodup_append]
        refine ⟨hbp.1, List.nodup_singleton _, ?_⟩
        intro i hi hi2
        rw [List.mem_singleton] at hi2
        exact absurd (hbp.2 i hi) (by omega)
      · intro i hi
        rcases List.mem_append.mp hi with h1 | h1
        · exact Nat.lt_succ_of_lt (hbp.2 i h1)
        · rw [List.mem_singleton] at h1; omega

theorem dp_process_all_paths :
    ∀ (l : List StayOption) (dp : List (Option ℚ × List ℕ)) (idx : ℕ),
      PathsOk idx dp → PathsOk (idx + l.length) (dp_process_all dp idx l) := by
  intro l
  induction l with
  | nil => intro dp idx h; simpa [dp_process_all] using h
  | cons s rest ih =>
    intro dp idx h
    unfold dp_process_all
    have := ih (dp_process_stay dp idx s) (idx + 1) (dp_process_stay_paths h)
    simpa [Nat.add_comm, Nat.add_assoc, Nat.add_left_comm, List.length_cons] using this

theorem dp_init_paths (range : ℕ) (n : ℕ) : PathsOk n (dp_init range) := by
  intro e he
  unfold dp_init at he
  rcases List.mem_cons.mp he with h1 | h1
  · rw [h1]; exact ⟨List.nodup_nil, by intro i hi; simp at hi⟩
  · have := List.eq_of_mem_replicate h1
    rw [this]
    exact ⟨List.nodup_nil, by intro i hi; simp at hi⟩

theorem dp_readout_cases (cands : List StayOption)
    (best entry : Option ℚ × List ℕ) :
    dp_readout_step cands best entry = best ∨
      (dp_readout_step cands best entry).2 = entry.2 := by
  unfold dp_readout_step
  rcases entry with ⟨ec, ep⟩
  rcases best with ⟨bc, bp⟩
  cases ec with
  | none => exact Or.inl rfl
  | some c =>
    cases bc with
    | none => exact Or.inr rfl
    | some b2 =>
      dsimp only
      split
      · exact Or.inr rfl
      split
      · exact Or.inr rfl
      · exact Or.inl rfl

/-- The read-out over the table yields a duplicate-free, in-bounds path. -/
theorem dp_readout_paths (cands : List StayOption) (n k : ℕ)
    (table : List (Option ℚ × List ℕ)) (h : PathsOk n table) :
    ((table.drop k).foldl (dp_readout_step cands) (none, [])).2.Nodup ∧
    ∀ i ∈ ((table.drop k).foldl (dp_readout_step cands) (none, [])).2, i < n := by
  refine foldl_preserve
    (fun best : Option ℚ × List ℕ => best.2.Nodup ∧ ∀ i ∈ best.2, i < n) _ _ _ ?_ ?_
  · exact ⟨List.nodup_nil, by intro i hi; simp at hi⟩
  · intro t a ha ht
    rcases dp_readout_cases cands t a with h1 | h1
    · rw [h1]; exact ht
    · rw [h1]
      exact h a (List.mem_of_mem_drop ha)

theorem pairwise_ne_filterMap (cands : List StayOption)
    (hp : List.Pairwise
      (fun a c : StayOption => a.check_in_date ≠ c.check_in_date) cands) :
    ∀ p : List ℕ, p.Nodup → (∀ i ∈ p, i < cands.length) →
      List.Pairwise (fun a c : StayOption => a.check_in_date ≠ c.check_in_date)
        (p.filterMap (fun i => cands[i]?)) := by
  intro p
  induction p with
  | nil => intro _ _; simp
  | cons i rest ih =>
    intro hnd hb
    have hi : i < cands.length := hb i (List.mem_cons_self _ _)
    have hrest : List.Pairwise
        (fun a c : StayOption => a.check_in_date ≠ c.check_in_date)
        (rest.filterMap (fun j => cands[j]?)) :=
      ih (List.Nodup.of_cons hnd) (fun j hj => hb j (List.mem_cons_of_mem _ hj))
    rw [List.filterMap_cons]
    rw [List.getElem?_eq_getElem hi]
    refine List.Pairwise.cons ?_ hrest
    intro y hy
    obtain ⟨j, hj, hjy⟩ := List.mem_filterMap.mp hy
    have hjlen : j < cands.length := hb j (List.mem_cons_of_mem _ hj)
    rw [List.getElem?_eq_getElem hjlen] at hjy
    have hij : i ≠ j := by
      intro hij
      exact (List.nodup_cons.mp hnd).1 (hij ▸ hj)
    have hpg := List.pairwise_iff_getElem.mp hp
    rcases Nat.lt_or_ge i j with hlt | hge
    · have := hpg i j hi hjlen hlt
      rw [← Option.some_inj.mp hjy]
      exact this
    · have hjlt : j < i := by omega
      have := hpg j i hjlen hi hjlt
      rw [← Option.some_inj.mp hjy]
      exact fun he => this he.symm

/-- The final sequential bonus pass: cost additivity, balance-absolute
achieved points, preserved check-in dates, and provenance of each entry. -/
theorem dp_finalize_spec (rate : ℚ) :
    ∀ (l : List StayOption) (proj : ℤ),
      (dp_finalize rate l proj).2.1 =
        ((dp_finalize rate l proj).1.map (fun s => s.total_price)).sum ∧
      (dp_finalize rate l proj).2.2 =
        proj + ((dp_finalize rate l proj).1.map
          (fun s => s.points_earned_final_for_itinerary)).sum ∧
      (dp_finalize rate l proj).1.map (fun s => s.check_in_date) =
        l.map (fun s => s.check_in_date) ∧
      (∀ y ∈ (dp_finalize rate l proj).1,
        ∃ x ∈ l, ∃ q, y = apply_status_bonus_and_recalculate x q rate) := by
  intro l
  induction l with
  | nil =>
    intro proj
    refine ⟨by simp [dp_finalize], by simp [dp_finalize], by simp [dp_finalize], ?_⟩
    intro y hy
    simp [dp_finalize] at hy
  | cons s rest ih =>
    intro proj
    obtain ⟨ih1, ih2, ih3, ih4⟩ := ih
      (proj + (apply_status_bonus_and_recalculate s proj rate).points_earned_final_for_itinerary)
    unfold dp_finalize
    dsimp only
    refine ⟨?_, ?_, ?_, ?_⟩
    · rw [ih1]
      simp [add_comm]
    · rw [ih2]
      simp [add_assoc]
    · simp only [List.map_cons, apply_status_check_in, ih3]
    · intro y hy
      rcases List.mem_cons.mp hy with h1 | h1
      · exact ⟨s, List.mem_cons_self _ _, proj, h1⟩
      · obtain ⟨x, hx, q, hxq⟩ := ih4 y h1
        exact ⟨x, List.mem_cons_of_mem _ hx, q, hxq⟩

theorem mem_of_filterMap_getElem {cands : List StayOption} {p : List ℕ}
    {x : StayOption} (h : x ∈ p.filterMap (fun i => cands[i]?)) : x ∈ cands := by
  obtain ⟨i, _, hix⟩ := List.mem_filterMap.mp h
  obtain ⟨hlt, heq⟩ := List.getElem?_eq_some_iff.mp hix
  exact heq ▸ List.getElem_mem hlt

/-- The end of the DP strategy's main branch: chronologically sorting a
duplicate-date-free selection and applying the sequential bonus pass yields
an itinerary with additive cost, balance-absolute achieved points, pairwise
distinct dates, chronological order, and provenance from the selection. -/
theorem dp_final_itinerary_spec (rate : ℚ) (b : ℤ) (temp : List StayOption)
    (hpw : List.Pairwise
      (fun a c : StayOption => a.check_in_date ≠ c.check_in_date) temp) :
    (dp_finalize rate (List.insertionSort chrono_le temp) b).2.1 =
      ((dp_finalize rate (List.insertionSort chrono_le temp) b).1.map
        (fun s => s.total_price)).sum ∧
    (dp_finalize rate (List.insertionSort chrono_le temp) b).2.2 =
      b + ((dp_finalize rate (List.insertionSort chrono_le temp) b).1.map
        (fun s => s.points_earned_final_for_itinerary)).sum ∧
    List.Pairwise (fun a c : StayOption => a.check_in_date ≠ c.check_in_date)
      (dp_finalize rate (List.insertionSort chrono_le temp) b).1 ∧
    List.Pairwise chrono_le (dp_finalize rate (List.insertionSort chrono_le temp) b).1 ∧
    (∀ x ∈ (dp_finalize rate (List.insertionSort chrono_le temp) b).1,
      ∃ y ∈ temp, ∃ q, x = apply_status_bonus_and_recalculate y q rate) := by
  obtain ⟨hf1, hf2, hf3, hf4⟩ := dp_finalize_spec rate (List.insertionSort chrono_le temp) b
  have hperm : List.Perm (List.insertionSort chrono_le temp) temp :=
    List.perm_insertionSort chrono_le temp
  have hpw_sorted : List.Pairwise
      (fun a c : StayOption => a.check_in_date ≠ c.check_in_date)
      (List.insertionSort chrono_le temp) :=
    (hperm.pairwise_iff (fun h => Ne.symm h)).mpr hpw
  refine ⟨hf1, hf2, ?_, ?_, ?_⟩
  · have h1 : ((dp_finalize rate (List.insertionSort chrono_le temp) b).1.map
        (fun s => s.check_in_date)).Pairwise (fun d e => d ≠ e) := by
      rw [hf3, List.pairwise_map]
      exact hpw_sorted
    rw [List.pairwise_map] at h1
    exact h1
  · have hsorted : List.Pairwise
        (fun a c : StayOption =>
          Date.key a.check_in_date ≤ Date.key c.check_in_date)
        (List.insertionSort chrono_le temp) :=
      List.sorted_insertionSort chrono_le temp
    have h1 : ((dp_finalize rate (List.insertionSort chrono_le temp) b).1.map
        (fun s => s.check_in_date)).Pairwise (fun d e => Date.key d ≤ Date.key e) := by
      rw [hf3, List.pairwise_map]
      exact hsorted
    rw [List.pairwise_map] at h1
    exact h1
  · intro x hx
    obtain ⟨y, hy, q, hxy⟩ := hf4 x hx
    exact ⟨y, hperm.mem_iff.mp hy, q, hxy⟩

/-- The full correctness bundle for `select_optimal_stays_dp`: cost
additivity; achieved points are balance-absolute except on the empty pool
with a positive target, where the source returns `0`; pairwise distinct
check-in dates; chronological output; and every selected stay has strictly
positive pre-bonus `points_earned` (note: not `api_points_earned`). -/
theorem select_optimal_stays_dp_spec (all_stays : List StayOption)
    (t b : ℤ) (rate : ℚ) :
    (select_optimal_stays_dp all_stays t b rate).2.1 =
      ((select_optimal_stays_dp all_stays t b rate).1.map
        (fun s => s.total_price)).sum ∧
    (select_optimal_stays_dp all_stays t b rate).2.2 =
      (if all_stays = [] ∧ 0 < t then 0
       else b + ((select_optimal_stays_dp all_stays t b rate).1.map
         (fun s => s.points_earned_final_for_itinerary)).sum) ∧
    List.Pairwise (fun a c : StayOption => a.check_in_date ≠ c.check_in_date)
      (select_optimal_stays_dp all_stays t b rate).1 ∧
    List.Pairwise chrono_le (select_optimal_stays_dp all_stays t b rate).1 ∧
    (∀ x ∈ (select_optimal_stays_dp all_stays t b rate).1,
      0 < x.points_earned) := by
  obtain ⟨hcand_pw, hcand_pos⟩ := dp_candidates_facts all_stays
  unfold select_optimal_stays_dp
  dsimp only
  split
  · rename_i hguard
    refine ⟨by simp, ?_, by simp, by simp, ?_⟩
    · simp only [List.map_nil, List.sum_nil, add_zero]
      by_cases ht : t ≤ 0
      · rw [if_pos ht, if_neg (fun hcon => by omega)]
      · have hall : all_stays = [] := by
          rcases hguard with h1 | h1
          · exact h1
          · exact absurd h1 ht
        rw [if_neg ht, if_pos ⟨hall, by omega⟩]
    · intro x hx
      simp at hx
  · rename_i hguard
    push_neg at hguard
    obtain ⟨hall, ht⟩ := hguard
    have hcond : ¬(all_stays = [] ∧ 0 < t) := fun hcon => hall hcon.1
    split
    · refine ⟨by simp, ?_, by simp, by simp, ?_⟩
      · simp only [List.map_nil, List.sum_nil, add_zero]
      · intro x hx
        simp at hx
    · split
      · refine ⟨by simp, ?_, by simp, by simp, ?_⟩
        · simp only [List.map_nil, List.sum_nil, add_zero]
        · intro x hx
          simp at hx
      · split
        · refine ⟨by simp, ?_, by simp, by simp, ?_⟩
          · simp only [List.map_nil, List.sum_nil, add_zero]
          · intro x hx
            simp at hx
        · rename_i hbest
          have hpaths := dp_readout_paths
            ((best_initial_stay_per_date all_stays).map (fun p => p.2))
            (0 + ((best_initial_stay_per_date all_stays).map (fun p => p.2)).length)
            (max 0 (t - b)).toNat
            (dp_process_all
              (dp_init
                (if max 0 (t - b) +
                      max (max (max_points_with_default
                        (((best_initial_stay_per_date all_stays).map (fun p => p.2)).map
                          (fun s => s.points_earned))) (max 0 (t - b) / 5)) 1000 ≤ 0 then
                    max 0 (t - b)
                  else
                    max 0 (t - b) +
                      max (max (max_points_with_default
                        (((best_initial_stay_per_date all_stays).map (fun p => p.2)).map
                          (fun s => s.points_earned))) (max 0 (t - b) / 5)) 1000).toNat)
              0 ((best_initial_stay_per_date all_stays).map (fun p => p.2)))
            (dp_process_all_paths _ _ 0 (dp_init_paths _ _))
          rw [Nat.zero_add] at hpaths
          have htemp_pw := pairwise_ne_filterMap _ hcand_pw _ hpaths.1 hpaths.2
          obtain ⟨g1, g2, g3, g4, g5⟩ := dp_final_itinerary_spec rate b _ htemp_pw
          refine ⟨g1, ?_, g3, g4, ?_⟩
          · exact g2
          · intro x hx
            obtain ⟨y, hy, q, hxy⟩ := g5 x hx
            have hy2 : y ∈ (best_initial_stay_per_date all_stays).map (fun p => p.2) :=
              mem_of_filterMap_getElem hy
            rw [hxy, apply_status_points_earned]
            exact (hcand_pos y hy2).1

/-- Merging stays whose key tuples are all already present leaves the pool
unchanged (dedup idempotence). -/
theorem merge_pass_results_all_dup (pool new_stays : List StayOption)
    (h : ∀ x ∈ new_stays, ∃ e ∈ pool, hotel_key e = hotel_key x) :
    merge_pass_results pool new_stays = pool := by
  induction new_stays with
  | nil => rfl
  | cons s rest ih =>
    unfold merge_pass_results
    rw [List.foldl_cons]
    have hdup : pool.any (fun e => decide (hotel_key e = hotel_key s)) = true := by
      obtain ⟨e, he, hek⟩ := h s (List.mem_cons_self _ _)
      exact List.any_eq_true.mpr ⟨e, he, decide_eq_true hek⟩
    rw [if_pos hdup]
    exact ih (fun x hx => h x (List.mem_cons_of_mem _ hx))

/-- The pool only ever grows across a merge: the merged pool extends the
old pool as a prefix. -/
theorem merge_pass_results_grows (new_stays : List StayOption) :
    ∀ pool, ∃ r, merge_pass_results pool new_stays = pool ++ r := by
  induction new_stays with
  | nil => intro pool; exact ⟨[], by simp [merge_pass_results]⟩
  | cons s rest ih =>
    intro pool
    unfold merge_pass_results
    rw [List.foldl_cons]
    by_cases hdup : pool.any (fun e => decide (hotel_key e = hotel_key s)) = true
    · rw [if_pos hdup]
      exact ih pool
    · rw [if_neg hdup]
      obtain ⟨r, hr⟩ := ih (pool ++ [s])
      refine ⟨[s] ++ r, ?_⟩
      rw [← List.append_assoc]
      exact hr

/-- With iterative mode disabled the search loop executes exactly one
iteration, whatever else the state is, and performs at most one search
pass. -/
theorem find_loop_noniter (fetch : ℕ → Date → Date → List StayOption)
    (strat : OptimizationStrategy) (target balance : ℤ) (maxOv : Option ℤ)
    (rate : ℚ) (horizon : Date) (iter passes : ℕ) (startD endD : Date)
    (achieved : ℤ) (pool : List StayOption) :
    (find_best_hotel_deals_loop fetch strat target balance maxOv rate false
      horizon iter passes startD endD achieved pool).1 = iter + 1 ∧
    (find_best_hotel_deals_loop fetch strat target balance maxOv rate false
      horizon iter passes startD endD achieved pool).2.1 ≤ passes + 1 := by
  rw [find_best_hotel_deals_loop]
  rw [dif_neg (by simp)]
  rw [if_neg (by simp)]
  split
  · exact ⟨rfl, Nat.le_succ passes⟩
  · rw [dif_pos rfl]
    exact ⟨rfl, Nat.le_refl _⟩

/-- With iterative mode enabled the number of executed search passes grows
by at most `12 - iter` from any loop entry. -/
theorem find_loop_iter_passes (n : ℕ) :
    ∀ (iter passes : ℕ) (fetch : ℕ → Date → Date → List StayOption)
      (strat : OptimizationStrategy) (target balance : ℤ) (maxOv : Option ℤ)
      (rate : ℚ) (horizon : Date) (startD endD : Date) (achieved : ℤ)
      (pool : List StayOption), 12 - iter ≤ n →
      (find_best_hotel_deals_loop fetch strat target balance maxOv rate true
        horizon iter passes startD endD achieved pool).2.1 ≤ passes + n := by
  induction n with
  | zero =>
    intro iter passes fetch strat target balance maxOv rate horizon startD endD
      achieved pool hn
    rw [find_best_hotel_deals_loop]
    rw [dif_pos ⟨rfl, by omega⟩]
    exact Nat.le_add_right _ _
  | succ n ih =>
    intro iter passes fetch strat target balance maxOv rate horizon startD endD
      achieved pool hn
    rw [find_best_hotel_deals_loop]
    by_cases h1 : (true = true ∧ 12 < iter + 1)
    · rw [dif_pos h1]
      exact Nat.le_add_right _ _
    · rw [dif_neg h1]
      split
      · exact Nat.le_add_right _ _
      split
      · exact Nat.le_add_right _ _
      rw [dif_neg (by simp)]
      split
      · exact Nat.add_le_add_left (by omega) passes
      dsimp only
      split
      · exact Nat.add_le_add_left (by omega) passes
      · exact le_trans (ih _ _ _ _ _ _ _ _ _ _ _ _ _ (by omega)) (by omega)

/-- Claim C3: for every stay and every non-negative projected balance, the
bonus recalculation uses percentage 0 below 60000, 0.20 in [60000, 100000),
0.30 at or above 100000; sets `status_bonus_points` to the rounding of
`api_points_earned * percentage` (base API points only, never the card-spend
bonus); and sets the final itinerary points to
`points_earned + status_bonus_points`. -/
theorem C3_status_bonus_formula (stay : StayOption) (b : ℤ) (rate : ℚ)
    (hb : 0 ≤ b) :
    (b < 60000 → status_bonus_percentage b = 0) ∧
    (60000 ≤ b → b < 100000 → status_bonus_percentage b = 20/100) ∧
    (100000 ≤ b → status_bonus_percentage b = 30/100) ∧
    (apply_status_bonus_and_recalculate stay b rate).status_bonus_points =
      round_half_even ((stay.api_points_earned : ℚ) * status_bonus_percentage b) ∧
    (apply_status_bonus_and_recalculate stay b rate).points_earned_final_for_itinerary =
      stay.points_earned +
        (apply_status_bonus_and_recalculate stay b rate).status_bonus_points := by
  refine ⟨?_, ?_, ?_, rfl, rfl⟩
  · intro h
    unfold status_bonus_percentage
    rw [if_neg (by omega), if_neg (by omega)]
  · intro h1 h2
    unfold status_bonus_percentage
    rw [if_neg (by omega), if_pos h1]
  · intro h
    unfold status_bonus_percentage
    rw [if_pos h]

/-- Witness for C3 at the spec's own scenario: balance 60000, base API points
10000 give a 20% bonus of 2000 points. -/
theorem C3_status_bonus_formula_witness :
    (0:ℤ) ≤ 60000 ∧
    (status_bonus_percentage 60000 = 20/100 ∧
     (apply_status_bonus_and_recalculate
        ⟨"H", "L", ⟨2025, 6, 1⟩, 50, 10000, 0, 10000, 200, 0, 10000, 200, 10000, 150⟩
        60000 (3/200)).status_bonus_points = 2000 ∧
     (apply_status_bonus_and_recalculate
        ⟨"H", "L", ⟨2025, 6, 1⟩, 50, 10000, 0, 10000, 200, 0, 10000, 200, 10000, 150⟩
        60000 (3/200)).points_earned_final_for_itinerary = 12000) := by
  have h := C3_status_bonus_formula
      ⟨"H", "L", ⟨2025, 6, 1⟩, 50, 10000, 0, 10000, 200, 0, 10000, 200, 10000, 150⟩
      60000 (3/200) (by decide)
  refine ⟨by decide, h.2.1 (by decide) (by decide), ?_, ?_⟩
  · rw [h.2.2.2.1, h.2.1 (by decide) (by decide)]
    decide
  · rw [h.2.2.2.2, h.2.2.2.1, h.2.1 (by decide) (by decide)]
    decide

/-- Claim C1 counterexample: for the points-per-dollar strategy on the empty
pool with starting balance 1, the returned achieved points are 0, not
`current_balance + sum(points_earned_final)` = 1, so achieved points are not
balance-absolute for this strategy. -/
theorem C1_counterexample :
    ¬((select_optimal_stays_ppd [] 10 1 (3/200)).2.2 =
      1 + ((select_optimal_stays_ppd [] 10 1 (3/200)).1.map
        (fun s => s.points_earned_final_for_itinerary)).sum) := by
  decide

/-- Claim C1 (amended): in every strategy `total_cost` is the sum of
`total_price` over the returned itinerary.  Achieved points are
balance-absolute for the fastest-calendar strategy, and for the DP strategy
except on an empty pool with positive target (where the source returns 0);
for the points-per-dollar and cheapest-greedy strategies achieved points
equal the sum of `points_earned_final_for_itinerary` alone, without the
starting balance. -/
theorem C1_amended_consistency (pool : List StayOption) (t b : ℤ)
    (maxOv : Option ℤ) (rate : ℚ) :
    (select_optimal_stays_ppd pool t b rate).2.1 =
      ((select_optimal_stays_ppd pool t b rate).1.map
        (fun s => s.total_price)).sum ∧
    (select_optimal_stays_ppd pool t b rate).2.2 =
      ((select_optimal_stays_ppd pool t b rate).1.map
        (fun s => s.points_earned_final_for_itinerary)).sum ∧
    (select_cheapest_stays_for_target_lp pool t b rate).2.1 =
      ((select_cheapest_stays_for_target_lp pool t b rate).1.map
        (fun s => s.total_price)).sum ∧
    (select_cheapest_stays_for_target_lp pool t b rate).2.2 =
      ((select_cheapest_stays_for_target_lp pool t b rate).1.map
        (fun s => s.points_earned_final_for_itinerary)).sum ∧
    (select_optimal_stays_dp pool t b rate).2.1 =
      ((select_optimal_stays_dp pool t b rate).1.map
        (fun s => s.total_price)).sum ∧
    (select_optimal_stays_dp pool t b rate).2.2 =
      (if pool = [] ∧ 0 < t then 0
       else b + ((select_optimal_stays_dp pool t b rate).1.map
         (fun s => s.points_earned_final_for_itinerary)).sum) ∧
    (select_fastest_calendar_time_lp pool t b maxOv rate).2.1 =
      ((select_fastest_calendar_time_lp pool t b maxOv rate).1.map
        (fun s => s.total_price)).sum ∧
    (select_fastest_calendar_time_lp pool t b maxOv rate).2.2 =
      b + ((select_fastest_calendar_time_lp pool t b maxOv rate).1.map
        (fun s => s.points_earned_final_for_itinerary)).sum := by
  obtain ⟨p1, p2, _, _, _⟩ := select_optimal_stays_ppd_spec pool t b rate
  obtain ⟨c1, c2, _, _, _⟩ := select_cheapest_stays_spec pool t b rate
  obtain ⟨d1, d2, _, _, _⟩ := select_optimal_stays_dp_spec pool t b rate
  obtain ⟨f1, f2, _, _, _⟩ := select_fastest_spec pool t b maxOv rate
  exact ⟨p1, p2, c1, c2, d1, d2, f1, f2⟩

/-- Claim C2 counterexample: the points-per-dollar strategy on the empty
pool with starting balance 7 returns `([], 0.0, 0)`, not
`([], 0.0, current_balance)`. -/
theorem C2_counterexample :
    select_optimal_stays_ppd [] 3 7 (3/200) ≠ ([], 0, 7) := by
  decide

/-- Claim C2 (amended): on an empty pool, or a pool with no eligible
candidates, every strategy returns the empty itinerary with cost 0.0 and
never raises, but the achieved-points component is 0 (not
`current_balance`) for the points-per-dollar and cheapest-greedy
strategies, and for DP on an empty pool with positive target; it is
`current_balance` for the fastest-calendar strategy always, for DP with a
non-positive target, and for DP on a nonempty pool with no eligible
candidates. -/
theorem C2_amended_empty_pool (t b : ℤ) (maxOv : Option ℤ) (rate : ℚ) :
    select_optimal_stays_ppd [] t b rate = ([], 0, 0) ∧
    select_cheapest_stays_for_target_lp [] t b rate = ([], 0, 0) ∧
    select_optimal_stays_dp [] t b rate = ([], 0, if t ≤ 0 then b else 0) ∧
    select_fastest_calendar_time_lp [] t b maxOv rate = ([], 0, b) ∧
    (∀ pool : List StayOption, (∀ s ∈ pool, ¬0 < s.api_points_earned) →
      select_optimal_stays_ppd pool t b rate = ([], 0, 0) ∧
      select_fastest_calendar_time_lp pool t b maxOv rate = ([], 0, b)) ∧
    (∀ pool : List StayOption,
      (∀ s ∈ pool, ¬(0 < s.api_points_earned ∧ 0 < s.total_price)) →
      select_cheapest_stays_for_target_lp pool t b rate = ([], 0, 0)) ∧
    (∀ pool : List StayOption,
      (∀ s ∈ pool, ¬(0 < s.points_earned ∧ 0 < s.total_price)) →
      pool ≠ [] → select_optimal_stays_dp pool t b rate = ([], 0, b)) := by
  refine ⟨rfl, rfl, ?_, rfl, ?_, ?_, ?_⟩
  · unfold select_optimal_stays_dp
    rw [if_pos (Or.inl rfl)]
  · intro pool h
    have hfilter : pool.filter (fun s => decide (0 < s.api_points_earned)) = [] := by
      rw [List.filter_eq_nil]
      intro a ha
      simpa using h a ha
    constructor
    · unfold select_optimal_stays_ppd
      rw [hfilter]
      rfl
    · unfold select_fastest_calendar_time_lp
      by_cases hp : pool = []
      · rw [if_pos hp]
      · rw [if_neg hp]
        dsimp only
        rw [hfilter]
        rfl
  · intro pool h
    have hfilter : pool.filter
        (fun s => decide (0 < s.api_points_earned) && decide (0 < s.total_price)) = [] := by
      rw [List.filter_eq_nil]
      intro a ha
      have := h a ha
      simp only [Bool.and_eq_true, decide_eq_true_eq]
      exact fun hcon => this hcon
    unfold select_cheapest_stays_for_target_lp
    rw [hfilter]
    rfl
  · intro pool h hp
    by_cases ht : t ≤ 0
    · unfold select_optimal_stays_dp
      rw [if_pos (Or.inr ht), if_pos ht]
    · have hphase : best_initial_stay_per_date pool = [] := by
        unfold best_initial_stay_per_date
        refine foldl_preserve (fun acc => acc = []) _ _ _ rfl ?_
        intro acc a ha hacc
        subst hacc
        unfold dp_phase1_step
        rw [if_pos ?_]
        have := h a ha
        push_neg at this
        by_cases hpe : 0 < a.points_earned
        · exact Or.inr (this hpe)
        · exact Or.inl (not_lt.mp hpe)
      unfold select_optimal_stays_dp
      rw [if_neg (by
        intro hcon
        rcases hcon with h1 | h1
        · exact hp h1
        · exact ht h1)]
      dsimp only
      rw [hphase]
      simp

/-- Witness for C2 (amended): a concrete empty-pool run and a concrete
ineligible singleton pool hit the amended return values. -/
theorem C2_amended_empty_pool_witness :
    select_optimal_stays_ppd [] 1 2 (3/200) = ([], 0, 0) ∧
    select_fastest_calendar_time_lp
      [⟨"Z", "L", ⟨2025, 6, 1⟩, 10, 0, 0, 0, 0, 0, 0, 0, 0, 0⟩] 1 2 none (3/200) =
      ([], 0, 2) ∧
    select_optimal_stays_dp
      [⟨"Z", "L", ⟨2025, 6, 1⟩, 10, 0, 0, 0, 0, 0, 0, 0, 0, 0⟩] 1 2 (3/200) =
      ([], 0, 2) := by
  refine ⟨(C2_amended_empty_pool 1 2 none (3/200)).1, ?_, ?_⟩
  · exact ((C2_amended_empty_pool 1 2 none (3/200)).2.2.2.2.1
      [⟨"Z", "L", ⟨2025, 6, 1⟩, 10, 0, 0, 0, 0, 0, 0, 0, 0, 0⟩] (by decide)).2
  · exact (C2_amended_empty_pool 1 2 none (3/200)).2.2.2.2.2.2
      [⟨"Z", "L", ⟨2025, 6, 1⟩, 10, 0, 0, 0, 0, 0, 0, 0, 0, 0⟩] (by decide) (by decide)

set_option maxRecDepth 100000 in
/-- Claim C4 counterexample: the DP strategy's candidate filter tests
`points_earned`, not `api_points_earned`, so a stay with zero base API
yield but a positive card-spend bonus is selected: with one stay of price
1, `api_points_earned = 0`, `card_bonus_points = 100`,
`points_earned = 100`, target 100 and balance 0, the returned itinerary
contains a stay whose base point yield is non-positive. -/
theorem C4_counterexample :
    ((select_optimal_stays_dp
      [⟨"C", "L", ⟨2025, 6, 1⟩, 1, 0, 100, 100, 100, 0, 100, 100, 0, 0⟩]
      100 0 (3/200)).1.any
      (fun s => decide (s.api_points_earned ≤ 0))) = true := by
  decide

/-- Claim C4 (amended): the points-per-dollar, cheapest-greedy and
fastest-calendar strategies never return a stay with non-positive
`api_points_earned`; the DP strategy instead guarantees only positive
pre-bonus `points_earned` (base plus card bonus), so a stay with
non-positive base yield and a positive card bonus can appear in its
itinerary. -/
theorem C4_amended_yield_filter (pool : List StayOption) (t b : ℤ)
    (maxOv : Option ℤ) (rate : ℚ) :
    (∀ s ∈ (select_optimal_stays_ppd pool t b rate).1,
      0 < s.api_points_earned) ∧
    (∀ s ∈ (select_cheapest_stays_for_target_lp pool t b rate).1,
      0 < s.api_points_earned) ∧
    (∀ s ∈ (select_fastest_calendar_time_lp pool t b maxOv rate).1,
      0 < s.api_points_earned) ∧
    (∀ s ∈ (select_optimal_stays_dp pool t b rate).1, 0 < s.points_earned) :=
  ⟨(select_optimal_stays_ppd_spec pool t b rate).2.2.2.2,
   (select_cheapest_stays_spec pool t b rate).2.2.2.2,
   (select_fastest_spec pool t b maxOv rate).2.2.2.1,
   (select_optimal_stays_dp_spec pool t b rate).2.2.2.2⟩

/-- Witness for C4 (amended) at a singleton eligible pool. -/
theorem C4_amended_yield_filter_witness :
    0 < (apply_status_bonus_and_recalculate
      ⟨"A", "L", ⟨2025, 6, 1⟩, 10, 100, 0, 100, 10, 0, 100, 10, 100, 0⟩
      0 (3/200)).api_points_earned :=
  (C4_amended_yield_filter
    [⟨"A", "L", ⟨2025, 6, 1⟩, 10, 100, 0, 100, 10, 0, 100, 10, 100, 0⟩]
    50 0 none (3/200)).1 _ (by decide)

/-- Claim C5: in the points-per-dollar, cheapest-greedy and DP strategies
no two entries of the returned itinerary share a check-in date. -/
theorem C5_date_exclusivity (pool : List StayOption) (t b : ℤ) (rate : ℚ) :
    List.Pairwise (fun a c : StayOption => a.check_in_date ≠ c.check_in_date)
      (select_optimal_stays_ppd pool t b rate).1 ∧
    List.Pairwise (fun a c : StayOption => a.check_in_date ≠ c.check_in_date)
      (select_cheapest_stays_for_target_lp pool t b rate).1 ∧
    List.Pairwise (fun a c : StayOption => a.check_in_date ≠ c.check_in_date)
      (select_optimal_stays_dp pool t b rate).1 :=
  ⟨(select_optimal_stays_ppd_spec pool t b rate).2.2.1,
   (select_cheapest_stays_spec pool t b rate).2.2.1,
   (select_optimal_stays_dp_spec pool t b rate).2.2.1⟩

/-- Claim C6: with a positive `max_overlaps`, the fastest-calendar
strategy's itinerary never books more than `max_overlaps` stays on any one
check-in date. -/
theorem C6_overlap_bound (pool : List StayOption) (t b : ℤ) (m : ℤ)
    (rate : ℚ) (hm : 0 < m) (d : Date) :
    (((select_fastest_calendar_time_lp pool t b (some m) rate).1.filter
      (fun e => decide (e.check_in_date = d))).length : ℤ) ≤ m :=
  (select_fastest_spec pool t b (some m) rate).2.2.2.2 m rfl hm d

/-- Witness for C6: two same-date stays, both needed, with
`max_overlaps = 2`: the bound holds at that date. -/
theorem C6_overlap_bound_witness :
    (0:ℤ) < 2 ∧
    (((select_fastest_calendar_time_lp
      [⟨"A", "L", ⟨2025, 6, 1⟩, 10, 100, 0, 100, 10, 0, 100, 10, 100, 0⟩,
       ⟨"B", "L", ⟨2025, 6, 1⟩, 10, 100, 0, 100, 10, 0, 100, 10, 100, 0⟩]
      150 0 (some 2) (3/200)).1.filter
      (fun e => decide (e.check_in_date = ⟨2025, 6, 1⟩))).length : ℤ) ≤ 2 :=
  ⟨by decide,
   C6_overlap_bound
     [⟨"A", "L", ⟨2025, 6, 1⟩, 10, 100, 0, 100, 10, 0, 100, 10, 100, 0⟩,
      ⟨"B", "L", ⟨2025, 6, 1⟩, 10, 100, 0, 100, 10, 0, 100, 10, 100, 0⟩]
     150 0 2 (3/200) (by decide) ⟨2025, 6, 1⟩⟩

/-- Claim C7: every strategy returns its itinerary sorted non-decreasingly
by check-in date (compared as parsed `MM/DD/YYYY` calendar dates). -/
theorem C7_chronological_output (pool : List StayOption) (t b : ℤ)
    (maxOv : Option ℤ) (rate : ℚ) :
    List.Pairwise chrono_le (select_optimal_stays_ppd pool t b rate).1 ∧
    List.Pairwise chrono_le (select_cheapest_stays_for_target_lp pool t b rate).1 ∧
    List.Pairwise chrono_le (select_optimal_stays_dp pool t b rate).1 ∧
    List.Pairwise chrono_le (select_fastest_calendar_time_lp pool t b maxOv rate).1 :=
  ⟨(select_optimal_stays_ppd_spec pool t b rate).2.2.2.1,
   (select_cheapest_stays_spec pool t b rate).2.2.2.1,
   (select_optimal_stays_dp_spec pool t b rate).2.2.2.1,
   (select_fastest_spec pool t b maxOv rate).2.2.1⟩

/-- Claim C8: the pool merge deduplicates on the exact tuple
`(name, location, check_in_date, total_price)`: merging stays whose key
tuples are already present leaves the pool unchanged (idempotence), and a
merge only ever extends the pool, so its size never shrinks. -/
theorem C8_dedup_merge (pool new_stays : List StayOption) :
    ((∀ x ∈ new_stays, ∃ e ∈ pool, hotel_key e = hotel_key x) →
      merge_pass_results pool new_stays = pool) ∧
    (∃ r, merge_pass_results pool new_stays = pool ++ r) ∧
    pool.length ≤ (merge_pass_results pool new_stays).length := by
  refine ⟨merge_pass_results_all_dup pool new_stays, merge_pass_results_grows new_stays pool, ?_⟩
  obtain ⟨r, hr⟩ := merge_pass_results_grows new_stays pool
  rw [hr]
  simp

/-- Witness for C8 at a concrete one-element pool merged with itself. -/
theorem C8_dedup_merge_witness :
    merge_pass_results
      [⟨"A", "L", ⟨2025, 6, 1⟩, 10, 100, 0, 100, 10, 0, 100, 10, 100, 0⟩]
      [⟨"A", "L", ⟨2025, 6, 1⟩, 10, 100, 0, 100, 10, 0, 100, 10, 100, 0⟩] =
      [⟨"A", "L", ⟨2025, 6, 1⟩, 10, 100, 0, 100, 10, 0, 100, 10, 100, 0⟩] ∧
    ([⟨"A", "L", ⟨2025, 6, 1⟩, 10, 100, 0, 100, 10, 0, 100, 10, 100, 0⟩] :
      List StayOption).length ≤
      (merge_pass_results
        [⟨"A", "L", ⟨2025, 6, 1⟩, 10, 100, 0, 100, 10, 0, 100, 10, 100, 0⟩]
        [⟨"A", "L", ⟨2025, 6, 1⟩, 10, 100, 0, 100, 10, 0, 100, 10, 100, 0⟩]).length :=
  ⟨(C8_dedup_merge _ _).1 (by decide), (C8_dedup_merge _ _).2.2⟩

/-- Claim C9: the orchestrator's search loop always terminates (the loop
model is a total function); starting from a fresh state it executes at most
12 search passes, and with iterative mode disabled the loop body runs
exactly once.  The stop conditions and 30-day clamped window advancement
are transcribed in `find_best_hotel_deals_loop`. -/
theorem C9_search_loop_bounded (fetch : ℕ → Date → Date → List StayOption)
    (strat : OptimizationStrategy) (target balance : ℤ) (maxOv : Option ℤ)
    (rate : ℚ) (iterative : Bool) (horizon startD endD : Date)
    (achieved : ℤ) (pool : List StayOption) :
    (find_best_hotel_deals_loop fetch strat target balance maxOv rate
      iterative horizon 0 0 startD endD achieved pool).2.1 ≤ 12 ∧
    (iterative = false →
      (find_best_hotel_deals_loop fetch strat target balance maxOv rate
        iterative horizon 0 0 startD endD achieved pool).1 = 1) := by
  cases iterative with
  | false =>
    obtain ⟨h1, h2⟩ := find_loop_noniter fetch strat target balance maxOv rate
      horizon 0 0 startD endD achieved pool
    exact ⟨le_trans h2 (by omega), fun _ => h1⟩
  | true =>
    refine ⟨?_, fun h => by simp at h⟩
    have := find_loop_iter_passes 12 0 0 fetch strat target balance maxOv rate
      horizon startD endD achieved pool (by omega)
    omega

/-- Witness for C9 at a concrete non-iterative run with no fetched data. -/
theorem C9_search_loop_bounded_witness :
    (find_best_hotel_deals_loop (fun _ _ _ => []) OptimizationStrategy.points_per_dollar
      100 0 none (3/200) false ⟨2025, 12, 1⟩ 0 0 ⟨2025, 6, 1⟩ ⟨2025, 6, 2⟩ 0 []).2.1 ≤ 12 ∧
    (find_best_hotel_deals_loop (fun _ _ _ => []) OptimizationStrategy.points_per_dollar
      100 0 none (3/200) false ⟨2025, 12, 1⟩ 0 0 ⟨2025, 6, 1⟩ ⟨2025, 6, 2⟩ 0 []).1 = 1 :=
  ⟨(C9_search_loop_bounded (fun _ _ _ => []) OptimizationStrategy.points_per_dollar
      100 0 none (3/200) false ⟨2025, 12, 1⟩ ⟨2025, 6, 1⟩ ⟨2025, 6, 2⟩ 0 []).1,
   (C9_search_loop_bounded (fun _ _ _ => []) OptimizationStrategy.points_per_dollar
      100 0 none (3/200) false ⟨2025, 12, 1⟩ ⟨2025, 6, 1⟩ ⟨2025, 6, 2⟩ 0 []).2 rfl⟩

/-- Claim C10: when the starting balance already reaches the target and the
pool holds at least one positive-yield candidate, the fastest-calendar
strategy selects nothing and returns
`([], 0.0, current_lp_balance)`. -/
theorem C10_fastest_target_already_met (pool : List StayOption) (t b : ℤ)
    (maxOv : Option ℤ) (rate : ℚ) (hb : t ≤ b)
    (hpool : ∃ s ∈ pool, 0 < s.api_points_earned) :
    select_fastest_calendar_time_lp pool t b maxOv rate = ([], 0, b) :=
  select_fastest_target_met pool t b maxOv rate hb

/-- Witness for C10 at a concrete pool with one positive-yield stay and the
balance at the target. -/
theorem C10_fastest_target_already_met_witness :
    select_fastest_calendar_time_lp
      [⟨"A", "L", ⟨2025, 6, 1⟩, 10, 100, 0, 100, 10, 0, 100, 10, 100, 0⟩]
      50 60 none (3/200) = ([], 0, 60) :=
  C10_fastest_target_already_met
    [⟨"A", "L", ⟨2025, 6, 1⟩, 10, 100, 0, 100, 10, 0, 100, 10, 100, 0⟩]
    50 60 none (3/200) (by decide)
    ⟨⟨"A", "L", ⟨2025, 6, 1⟩, 10, 100, 0, 100, 10, 0, 100, 10, 100, 0⟩,
      by decide, by decide⟩

end AAHotel
